import Mathlib

/-!
Verification of the bbbctl command-line client (`bbbctl.py`).

The development shallowly embeds the pure parts of the program:
the signed-URL builder (`BBBApiClient.makeurl`), the response status
check of `BBBApiClient.call`, the XML-to-JSON transform `_unpack_xml`,
the human formatter `format_human`, and the command handlers
`cmd_meet_list` (sorting), `cmd_meet_create`, `cmd_meet_chat`
(broadcast fan-out) and `cmd_meet_nuke`.  XML trees are an explicit
inductive type; fallible Python code (attribute errors, `int()`
failures) is modelled with `Option`/`Except`; `print` output is
modelled as a list of lines.
-/

/-- An XML element as used by `xml.etree.ElementTree`: a tag, optional
text content, and an ordered list of child elements (attributes are
never consulted by the program and are omitted). -/
inductive Xml where
  | mk (tag : String) (text : Option String) (children : List Xml)

def Xml.tag : Xml → String
  | .mk t _ _ => t

def Xml.text : Xml → Option String
  | .mk _ tx _ => tx

def Xml.children : Xml → List Xml
  | .mk _ _ cs => cs

/-- `e.find(tag)`: the first immediate child whose tag matches, if any. -/
def Xml.find (e : Xml) (t : String) : Option Xml :=
  e.children.find? (fun c => c.tag = t)

/-- A JSON value, the target of the `json`/`jsonline` formatters.
Objects are ordered key-value lists, mirroring Python dict insertion
order. -/
inductive JsonV where
  | null
  | bool (b : Bool)
  | num (n : Int)
  | str (s : String)
  | arr (l : List JsonV)
  | obj (l : List (String × JsonV))

/-- Python `str.strip()`: remove leading and trailing whitespace. -/
def pyStrip (s : String) : String :=
  ⟨((s.data.dropWhile Char.isWhitespace).reverse.dropWhile Char.isWhitespace).reverse⟩

/-- Python `str.lower()` (ASCII case folding, as used on tags and
prompt answers). -/
def pyLower (s : String) : String :=
  ⟨s.data.map Char.toLower⟩

/-- Python `int(s)` on a string: optional surrounding whitespace and
sign, then at least one decimal digit; anything else raises. -/
def pyIntStr (s : String) : Option Int :=
  let digitsVal : List Char → Option Nat := fun cs =>
    if cs ≠ [] ∧ cs.all Char.isDigit then
      some (cs.foldl (fun a c => a * 10 + (c.toNat - 48)) 0)
    else none
  match (pyStrip s).data with
  | [] => none
  | c :: rest =>
    if c = Char.ofNat 45 then (digitsVal rest).map (fun n => -(n : Int))
    else if c = Char.ofNat 43 then (digitsVal rest).map Int.ofNat
    else (digitsVal (c :: rest)).map Int.ofNat

/-- Python `int(value)` where `value : Optional[str]`; `int(None)`
raises. -/
def pyInt (v : Option String) : Option Int :=
  v.bind pyIntStr

/-- UTF-8 encoding of a single character, as byte values. -/
def utf8Bytes (c : Char) : List Nat :=
  let n := c.toNat
  if n < 128 then [n]
  else if n < 2048 then [192 + n / 64, 128 + n % 64]
  else if n < 65536 then [224 + n / 4096, 128 + (n / 64) % 64, 128 + n % 64]
  else [240 + n / 262144, 128 + (n / 4096) % 64, 128 + (n / 64) % 64, 128 + n % 64]

/-- `s.encode("utf8")` as a list of byte values. -/
def strBytes (s : String) : List Nat :=
  (s.data.map utf8Bytes).flatten

/-- Lowercase hexadecimal digit. -/
def hexDigitL (n : Nat) : Char :=
  if n < 10 then Char.ofNat (48 + n) else Char.ofNat (87 + n)

/-- Uppercase hexadecimal digit (percent-encoding uses uppercase). -/
def hexDigitU (n : Nat) : Char :=
  if n < 10 then Char.ofNat (48 + n) else Char.ofNat (55 + n)

/-- `urllib.parse.quote_plus` on one character: ASCII alphanumerics and
`_.-~` are kept, a space becomes `+`, everything else is
percent-encoded per UTF-8 byte. -/
def quotePlusChar (c : Char) : String :=
  if c.isAlphanum ∨ c ∈ [Char.ofNat 95, Char.ofNat 46, Char.ofNat 45, Char.ofNat 126] then
    String.singleton c
  else if c = Char.ofNat 32 then "+"
  else String.join ((utf8Bytes c).map (fun b =>
    "%" ++ String.singleton (hexDigitU (b / 16)) ++ String.singleton (hexDigitU (b % 16))))

/-- `urllib.parse.quote_plus` on a string. -/
def quote_plus (s : String) : String :=
  String.join (s.data.map quotePlusChar)

/-- `urllib.parse.urlencode`: `k=v` pairs, `quote_plus`-encoded, joined
with `&`, in the given order. -/
def urlencode (q : List (String × String)) : String :=
  String.intercalate "&" (q.map (fun p => quote_plus p.1 ++ "=" ++ quote_plus p.2))

/-- The dict comprehension `{k:v for k,v in query.items() if v is not
None}`: parameters whose value is absent are dropped. -/
def dropAbsent (q : List (String × Option String)) : List (String × String) :=
  q.filterMap (fun p => p.2.map (fun v => (p.1, v)))

/-! ### SHA-1 (`hashlib.sha1(...).hexdigest()`)

Modelled over `Nat` with explicit reduction modulo `2 ^ 32`. -/

/-- Rotate a 32-bit word left by `k` bits. -/
def rotl32 (k n : Nat) : Nat :=
  ((n <<< k) % 4294967296) ||| (n >>> (32 - k))

/-- Big-endian byte representation of `n` in `k` bytes. -/
def natToBytesBE (k n : Nat) : List Nat :=
  (List.range k).map (fun i => (n >>> (8 * (k - 1 - i))) % 256)

/-- Group bytes into big-endian 32-bit words. -/
def bytesToWords : List Nat → List Nat
  | b0 :: b1 :: b2 :: b3 :: rest =>
    ((b0 <<< 24) + (b1 <<< 16) + (b2 <<< 8) + b3) :: bytesToWords rest
  | _ => []

/-- SHA-1 padding: append `0x80`, zero bytes to 56 mod 64, then the
original bit length as 8 big-endian bytes. -/
def sha1pad (msg : List Nat) : List Nat :=
  let z := (56 - (msg.length + 1) % 64 + 64) % 64
  msg ++ [128] ++ List.replicate z 0 ++ natToBytesBE 8 (msg.length * 8)

/-- Split a list into successive 64-byte chunks. -/
def chunks64 (l : List Nat) : List (List Nat) :=
  match l with
  | [] => []
  | a :: rest => ((a :: rest).take 64) :: chunks64 ((a :: rest).drop 64)
  termination_by l.length
  decreasing_by simp only [List.length_drop, List.length_cons]; omega

/-- Extend 16 message words to the 80-word SHA-1 schedule. -/
def sha1schedule (ws : List Nat) : List Nat :=
  (List.range 64).foldl (fun acc _ =>
    acc ++ [rotl32 1 ((((acc.getD (acc.length - 3) 0) ^^^ (acc.getD (acc.length - 8) 0)) ^^^
      (acc.getD (acc.length - 14) 0)) ^^^ (acc.getD (acc.length - 16) 0))]) ws

/-- One SHA-1 compression round. -/
def sha1round (st : Nat × Nat × Nat × Nat × Nat) (iw : Nat × Nat) :
    Nat × Nat × Nat × Nat × Nat :=
  let (a, b, c, d, e) := st
  let (i, w) := iw
  let f :=
    if i < 20 then (b &&& c) ||| ((b ^^^ 4294967295) &&& d)
    else if i < 40 then (b ^^^ c) ^^^ d
    else if i < 60 then ((b &&& c) ||| (b &&& d)) ||| (c &&& d)
    else (b ^^^ c) ^^^ d
  let k :=
    if i < 20 then 1518500249
    else if i < 40 then 1859775393
    else if i < 60 then 2400959708
    else 3395469782
  let temp := (rotl32 5 a + f + e + k + w) % 4294967296
  (temp, a, rotl32 30 b, c % 4294967296, d)

/-- SHA-1 compression of one 64-byte chunk into the running state. -/
def sha1compress (h : List Nat) (chunk : List Nat) : List Nat :=
  let ws := sha1schedule (bytesToWords chunk)
  let h0 := h.getD 0 0
  let h1 := h.getD 1 0
  let h2 := h.getD 2 0
  let h3 := h.getD 3 0
  let h4 := h.getD 4 0
  let (a, b, c, d, e) := ws.enum.foldl sha1round (h0, h1, h2, h3, h4)
  [(h0 + a) % 4294967296, (h1 + b) % 4294967296, (h2 + c) % 4294967296,
   (h3 + d) % 4294967296, (h4 + e) % 4294967296]

/-- SHA-1 digest of a byte list, as 20 bytes. -/
def sha1 (msg : List Nat) : List Nat :=
  let h := (chunks64 (sha1pad msg)).foldl sha1compress
    [1732584193, 4023233417, 2562383102, 271733878, 3285377520]
  (h.map (natToBytesBE 4)).flatten

/-- `hashlib.sha1(s.encode("utf8")).hexdigest()`: lowercase hex. -/
def sha1hex (s : String) : String :=
  String.join ((sha1 (strBytes s)).map (fun b =>
    String.singleton (hexDigitL (b / 16)) ++ String.singleton (hexDigitL (b % 16))))

/-! ### The API client -/

/-- The immutable client configuration. -/
structure BBBApiClient where
  api : String
  secret : String

/-- `BBBApiClient.makeurl`: drop absent parameters, URL-encode the rest
in caller order, sign `command + query + secret` with SHA-1, append the
checksum parameter (with `&` only when a query is present) and build
the final URL. -/
def BBBApiClient.makeurl (c : BBBApiClient) (command : String)
    (query : List (String × Option String)) : String :=
  let q := urlencode (dropAbsent query)
  let checksum := sha1hex (command ++ q ++ c.secret)
  let q := if q ≠ "" then q ++ "&" else q
  let q := q ++ "checksum=" ++ checksum
  c.api ++ "/" ++ command ++ "?" ++ q

/-- `BBBApiClient.getJoinLink`. -/
def BBBApiClient.getJoinLink (c : BBBApiClient)
    (query : List (String × Option String)) : String :=
  c.makeurl "join" query

/-- Outcome of the response check in `BBBApiClient.call`:
`apiError tree` models `raise ApiError(root)`; `attributeError` models
the `AttributeError` raised by `.text` when `find` returned `None`. -/
inductive CallError where
  | apiError (tree : Xml)
  | attributeError

/-- The response-checking tail of `BBBApiClient.call`, applied to the
parsed root element: `if root.find("./returncode").text != "SUCCESS":
raise ApiError(root)` and otherwise `return root`. -/
def BBBApiClient.call (root : Xml) : Except CallError Xml :=
  match root.find "returncode" with
  | none => .error .attributeError
  | some rc => if rc.text ≠ some "SUCCESS" then .error (.apiError root) else .ok root

/-! ### The JSON tree-to-value transform (`_unpack_xml`) -/

/-- Tags that must render as a JSON list. -/
def _should_be_list : List String := ["attendees"]

/-- Tags that must render as a JSON number. -/
def _should_be_number : List String :=
  ["createTime", "duration", "startTime", "endTime", "participantCount",
   "listenerCount", "voiceParticipantCount", "videoCount", "maxUsers",
   "moderatorCount"]

/-- One step of Python dict building: assigning to an existing key
replaces its value in place, a new key is appended. -/
def dictInsert (d : List (String × JsonV)) (k : String) (v : JsonV) :
    List (String × JsonV) :=
  if d.any (fun p => p.1 = k) then
    d.map (fun p => if p.1 = k then (k, v) else p)
  else d ++ [(k, v)]

/-- A Python dict comprehension over a pair sequence: insertion order
of first occurrences, last assignment wins. -/
def dictOfPairs (ps : List (String × JsonV)) : List (String × JsonV) :=
  ps.foldl (fun d p => dictInsert d p.1 p.2) []

mutual

/-- `_unpack_xml`: the XML-tree to JSON-value transform used by the
`json`/`jsonline` formatters.  `none` models a raised exception
(`int()` on non-numeric or absent text). -/
def _unpack_xml (e : Xml) : Option JsonV :=
  match e with
  | .mk tag text children =>
    if tag ∈ _should_be_list then
      -- `[_unpack_xml(c) for c in e if e.tag]`: the guard tests the
      -- parent tag, so it keeps every child whenever the tag is nonempty.
      (if tag ≠ "" then (unpackAll children).map JsonV.arr else some (JsonV.arr []))
    else if children.length ≠ 0 then
      -- `{c.tag: _unpack_xml(c) for c in e if c.tag}`
      (unpackPairs children).map (fun ps => JsonV.obj (dictOfPairs ps))
    else
      -- `value = e.text and e.text.strip()`
      let value := text.map pyStrip
      if tag ∈ _should_be_number then (pyInt value).map JsonV.num
      else if value = none ∨ value = some "" then some JsonV.null
      else if value = some "true" then some (JsonV.bool true)
      else if value = some "false" then some (JsonV.bool false)
      else value.map JsonV.str

/-- Transform of every child, failing when any child fails. -/
def unpackAll : List Xml → Option (List JsonV)
  | [] => some []
  | c :: cs => do
    let v ← _unpack_xml c
    let rest ← unpackAll cs
    return v :: rest

/-- Transform of the children kept by the dict comprehension (those
with a nonempty tag), paired with their tags, in document order. -/
def unpackPairs : List Xml → Option (List (String × JsonV))
  | [] => some []
  | c :: cs =>
    if c.tag = "" then unpackPairs cs
    else do
      let v ← _unpack_xml c
      let rest ← unpackPairs cs
      return (c.tag, v) :: rest

end

/-! ### The human formatter -/

/-- Four lowercase hexadecimal digits. -/
def hex4 (n : Nat) : String :=
  String.singleton (hexDigitL (n / 4096 % 16)) ++ String.singleton (hexDigitL (n / 256 % 16)) ++
  String.singleton (hexDigitL (n / 16 % 16)) ++ String.singleton (hexDigitL (n % 16))

/-- `json.dumps` escaping of one character (default `ensure_ascii`):
quote and backslash get a backslash escape, common control characters
get their short escapes, other control and all non-ASCII characters
become `\uXXXX` (with surrogate pairs beyond the BMP). -/
def jsonEscapeChar (c : Char) : String :=
  if c = Char.ofNat 34 ∨ c = Char.ofNat 92 then
    String.singleton (Char.ofNat 92) ++ String.singleton c
  else if c = Char.ofNat 10 then String.singleton (Char.ofNat 92) ++ "n"
  else if c = Char.ofNat 13 then String.singleton (Char.ofNat 92) ++ "r"
  else if c = Char.ofNat 9 then String.singleton (Char.ofNat 92) ++ "t"
  else if c = Char.ofNat 8 then String.singleton (Char.ofNat 92) ++ "b"
  else if c = Char.ofNat 12 then String.singleton (Char.ofNat 92) ++ "f"
  else if c.toNat < 32 ∨ c.toNat > 126 then
    if c.toNat < 65536 then String.singleton (Char.ofNat 92) ++ "u" ++ hex4 c.toNat
    else
      String.singleton (Char.ofNat 92) ++ "u" ++ hex4 (55296 + (c.toNat - 65536) / 1024) ++
      String.singleton (Char.ofNat 92) ++ "u" ++ hex4 (56320 + (c.toNat - 65536) % 1024)
  else String.singleton c

/-- `json.dumps` of a string value. -/
def jsonDumpsStr (s : String) : String :=
  String.singleton (Char.ofNat 34) ++ String.join (s.data.map jsonEscapeChar) ++
    String.singleton (Char.ofNat 34)

/-- `safe_str`: strings containing a newline, space, comma, quote,
apostrophe or equals sign are wrapped in their JSON encoding, others
pass through unchanged. -/
def safe_str (s : String) : String :=
  if s.data.any (fun c =>
      c ∈ [Char.ofNat 10, Char.ofNat 32, Char.ofNat 44, Char.ofNat 34,
           Char.ofNat 39, Char.ofNat 61]) then
    jsonDumpsStr s
  else s

mutual

/-- `format_human`: the recursive indented `tag: value` renderer.
`fmtTs` abstracts the library call
`str(datetime.datetime.fromtimestamp(float(v) / 1000, timezone.utc))`,
with `none` modelling the exception raised on non-numeric input;
`none` overall models a raised exception. -/
def format_human (fmtTs : String → Option String) (e : Xml) (indent : String) :
    Option String :=
  match e with
  | .mk tag text children => do
    -- `value = e.text and e.text.strip()`
    let value : Option String := text.map pyStrip
    let value : Option String ←
      if pyLower tag = "starttime" ∨ pyLower tag = "endtime" then
        match value with
        | none => none  -- `float(None)` raises
        | some v => (fmtTs v).map (fun ts => some (ts ++ " (" ++ v ++ ")"))
      else pure value
    let result := indent ++ tag ++ ":"
    let result :=
      match value with
      | some v => if v ≠ "" then result ++ " " ++ safe_str v else result
      | none => result
    let rest ← formatChildren fmtTs children (indent ++ "  ")
    return result ++ rest

/-- The child loop of `format_human`: each child contributes a newline
followed by its rendering at two more spaces of indentation. -/
def formatChildren (fmtTs : String → Option String) :
    List Xml → String → Option String
  | [], _ => some ""
  | c :: cs, indent => do
    let s ← format_human fmtTs c indent
    let rest ← formatChildren fmtTs cs indent
    return ("\n" ++ s) ++ rest

end

/-! ### Command handlers -/

/-- `str(v)` for an optional string, as used by `str.format`: `None`
renders as the string `None`. -/
def pyStr (v : Option String) : String :=
  v.getD "None"

/-- Python `repr` of a string (the `!r` conversion), for printable
content: single-quoted unless the string contains a single quote and no
double quote, with backslash escapes for the quote character, the
backslash and common control characters. -/
def pyReprStr (s : String) : String :=
  let hasSingle := s.data.any (fun c => c = Char.ofNat 39)
  let hasDouble := s.data.any (fun c => c = Char.ofNat 34)
  let q := if hasSingle ∧ ¬hasDouble then Char.ofNat 34 else Char.ofNat 39
  let esc : Char → String := fun c =>
    if c = q ∨ c = Char.ofNat 92 then String.singleton (Char.ofNat 92) ++ String.singleton c
    else if c = Char.ofNat 10 then String.singleton (Char.ofNat 92) ++ "n"
    else if c = Char.ofNat 13 then String.singleton (Char.ofNat 92) ++ "r"
    else if c = Char.ofNat 9 then String.singleton (Char.ofNat 92) ++ "t"
    else String.singleton c
  String.singleton q ++ String.join (s.data.map esc) ++ String.singleton q

/-- The `!r` conversion applied to an optional string (`repr(None)` is
`None`). -/
def pyReprOpt (v : Option String) : String :=
  match v with
  | none => "None"
  | some s => pyReprStr s

/-- `sortkey(elem, key)`: `int(elem.find(key).text.strip())`; `none`
models the exception raised when the child is missing, has no text, or
has non-numeric text. -/
def sortkey (elem : Xml) (key : String) : Option Int := do
  let v ← elem.find key
  let t ← v.text
  pyIntStr (pyStrip t)

/-- The comparison used to sort meetings: ascending by the attached
integer key. -/
def leKey (a b : Xml × Int) : Prop := a.2 ≤ b.2

instance : DecidableRel leKey := fun a b => inferInstanceAs (Decidable (a.2 ≤ b.2))

instance : IsTotal (Xml × Int) leKey := ⟨fun a b => Int.le_total a.2 b.2⟩

instance : IsTrans (Xml × Int) leKey := ⟨fun _ _ _ h h2 => le_trans h h2⟩

/-- The sorting step of `cmd_meet_list` under `--sort key`:
`sorted(meetings, key=lambda m: sortkey(m, args.sort))`.  Every key is
evaluated (failing when any element lacks the field or has non-numeric
text), then the meetings are rearranged by a stable ascending sort on
the integer keys. -/
def cmd_meet_list_sort (key : String) (meetings : List Xml) : Option (List Xml) := do
  let pairs ← meetings.mapM (fun m => (sortkey m key).map (fun k => (m, k)))
  return (List.insertionSort leKey pairs).map Prod.fst

/-- The moderator-link block printed by `cmd_meet_create` after the
formatted create response: nothing when no `--mod` name was given;
otherwise a blank line from `print()`, the loop computing one join link
per name into the variable `link`, and the single `print(name + ":",
link)` that follows the loop, showing the final loop values. -/
def cmd_meet_create_modlines (c : BBBApiClient) (id : String) (mods : List String)
    (created : Xml) : Option (List String) :=
  match mods with
  | [] => some []
  | m :: rest => do
    let ct ← created.find "createTime"
    let links := (m :: rest).map (fun n =>
      c.getJoinLink [("meetingID", some id), ("fullName", some n),
                     ("createTime", ct.text), ("role", some "MODERATOR")])
    return ["", ((m :: rest).getLastD "") ++ ": " ++ links.getLastD ""]

/-- The meeting identifiers `cmd_meet_chat` will message: for the
`BROADCAST` sentinel, `[m.find("meetingID").text for m in
api.getMeetings()]` (failing when a meeting lacks the child), otherwise
just the given identifier. -/
def cmd_meet_chat_targets (id : String) (running : List Xml) :
    Option (List (Option String)) :=
  if id = "BROADCAST" then
    running.mapM (fun m => (m.find "meetingID").map Xml.text)
  else some [some id]

/-- The send loop of `cmd_meet_chat`: `fail t` says whether
`sendChatMessage` raises `ApiError` for target `t`.  Returns the
targets a send was issued for, and whether the loop ran to completion;
a raised error propagates and ends the loop. -/
def chatLoop (fail : Option String → Bool) :
    List (Option String) → List (Option String) × Bool
  | [] => ([], true)
  | m :: rest =>
    if fail m then ([m], false)
    else
      let r := chatLoop fail rest
      (m :: r.1, r.2)

/-- `cmd_meet_chat`: resolve the targets, then send to each in turn. -/
def cmd_meet_chat (fail : Option String → Bool) (id : String) (running : List Xml) :
    Option (List (Option String) × Bool) :=
  (cmd_meet_chat_targets id running).map (chatLoop fail)

/-- The preview line `cmd_meet_nuke` prints for one meeting; `none`
models the `AttributeError` raised when a `find` returns `None`. -/
def nukePreviewLine (doit : Bool) (m : Xml) : Option String := do
  let idE ← m.find "meetingID"
  let usersE ← m.find "participantCount"
  let nameE ← m.find "meetingName"
  return (if doit then "" else "(dry run) ") ++ "id=" ++ pyStr idE.text ++
    " user=" ++ pyStr usersE.text ++ " name=" ++ pyReprOpt nameE.text

/-- `cmd_meet_nuke`: for each meeting print a preview line; when
`doit` is set, optionally prompt (consuming one answer from the input
stream; an exhausted stream models `EOFError`) and end the meeting.
Returns the printed lines and the `meetingID` values passed to
`api.end`, which is modelled as succeeding. -/
def cmd_meet_nuke (doit ask : Bool) (answers : List String) :
    List Xml → Option (List String × List (Option String))
  | [] => some ([], [])
  | m :: rest => do
    let line ← nukePreviewLine doit m
    if doit then
      if ask then
        match answers with
        | [] => none
        | ans :: answers2 =>
          let a := pyLower (pyStrip ans)
          if a = "a" then do
            let idE ← m.find "meetingID"
            let r ← cmd_meet_nuke doit false answers2 rest
            return (line :: r.1, idE.text :: r.2)
          else if a = "" ∨ a = "y" then do
            let idE ← m.find "meetingID"
            let r ← cmd_meet_nuke doit ask answers2 rest
            return (line :: r.1, idE.text :: r.2)
          else do
            let r ← cmd_meet_nuke doit ask answers2 rest
            return (line :: r.1, r.2)
      else do
        let idE ← m.find "meetingID"
        let r ← cmd_meet_nuke doit ask answers rest
        return (line :: r.1, idE.text :: r.2)
    else do
      let r ← cmd_meet_nuke doit ask answers rest
      return (line :: r.1, r.2)

/-! ### Theorems -/

/-- Helper: when every parameter value is absent, the filtered query is
empty. -/
theorem dropAbsent_eq_nil {query : List (String × Option String)}
    (h : ∀ p ∈ query, p.2 = none) : dropAbsent query = [] := by
  unfold dropAbsent
  rw [List.filterMap_eq_nil_iff]
  intro p hp
  rw [h p hp]
  rfl

/-- C1: for every command name, secret and parameter mapping, `makeurl`
drops the parameters whose value is absent, URL-encodes the remaining
`key=value` pairs joined with `&` in caller-supplied order (the content
of `urlencode (dropAbsent query)`), computes the checksum as the
lowercase-hex SHA-1 digest of `command + encodedQuery + secret`, and
produces `<endpoint>/<command>?<query>&checksum=<digest>`; when the
encoded query is empty there is no leading `&` before `checksum=` and
the signed string is `command + "" + secret`. -/
theorem makeurl_spec (api secret command : String)
    (query : List (String × Option String)) :
    (BBBApiClient.makeurl ⟨api, secret⟩ command query =
      api ++ "/" ++ command ++ "?" ++
        ((if urlencode (dropAbsent query) = "" then ""
          else urlencode (dropAbsent query) ++ "&") ++
         ("checksum=" ++ sha1hex (command ++ urlencode (dropAbsent query) ++ secret))))
    ∧ ((∀ p ∈ query, p.2 = none) →
        BBBApiClient.makeurl ⟨api, secret⟩ command query =
          api ++ "/" ++ command ++ "?" ++
            ("checksum=" ++ sha1hex (command ++ "" ++ secret))) := by
  constructor
  · by_cases h : urlencode (dropAbsent query) = ""
    · simp [BBBApiClient.makeurl, h, String.append_assoc]
    · simp only [BBBApiClient.makeurl, h, ne_eq, not_false_eq_true, if_true, ite_false,
        if_false, String.append_assoc, reduceIte]
  · intro h
    have hq : dropAbsent query = [] := dropAbsent_eq_nil h
    have he : urlencode ([] : List (String × String)) = "" := rfl
    simp [BBBApiClient.makeurl, hq, he, String.append_assoc, String.empty_append,
      String.append_empty]

/-- Witness for C1 at a concrete all-absent query: the URL carries the
checksum parameter directly after `?`, signed over `command + "" +
secret`. -/
theorem makeurl_spec_witness :
    BBBApiClient.makeurl ⟨"https://h/bigbluebutton/api", "s3cr3t"⟩ "getMeetings"
        [("meetingID", none)] =
      "https://h/bigbluebutton/api" ++ "/" ++ "getMeetings" ++ "?" ++
        ("checksum=" ++ sha1hex ("getMeetings" ++ "" ++ "s3cr3t")) :=
  (makeurl_spec "https://h/bigbluebutton/api" "s3cr3t" "getMeetings"
    [("meetingID", none)]).2 (by simp)

/-- C2: for every parsed response whose root has an immediate
`returncode` child, `call` raises `ApiError` carrying the whole root
tree exactly when that child's text is not the string `SUCCESS`, and
when the text is `SUCCESS` it returns the full root unchanged. -/
theorem call_spec (root rc : Xml) (h : root.find "returncode" = some rc) :
    (BBBApiClient.call root = Except.error (CallError.apiError root) ↔
      rc.text ≠ some "SUCCESS")
    ∧ (rc.text = some "SUCCESS" → BBBApiClient.call root = Except.ok root) := by
  unfold BBBApiClient.call
  rw [h]
  by_cases ht : rc.text = some "SUCCESS" <;> simp [ht]

/-- Witness for C2 at a concrete failed response (`returncode` text
`FAILED`): `call` raises `ApiError` carrying the root. -/
theorem call_spec_witness :
    ((Xml.mk "response" none
        [Xml.mk "returncode" (some "FAILED") [],
         Xml.mk "message" (some "idNotUnique") []]).find "returncode" =
      some (Xml.mk "returncode" (some "FAILED") []))
    ∧ (BBBApiClient.call
        (Xml.mk "response" none
          [Xml.mk "returncode" (some "FAILED") [],
           Xml.mk "message" (some "idNotUnique") []]) =
        Except.error (CallError.apiError
          (Xml.mk "response" none
            [Xml.mk "returncode" (some "FAILED") [],
             Xml.mk "message" (some "idNotUnique") []])) ↔
      (Xml.mk "returncode" (some "FAILED") []).text ≠ some "SUCCESS") :=
  ⟨rfl,
   (call_spec
     (Xml.mk "response" none
       [Xml.mk "returncode" (some "FAILED") [],
        Xml.mk "message" (some "idNotUnique") []])
     (Xml.mk "returncode" (some "FAILED") []) rfl).1⟩

/-- First-occurrence lookup in an ordered key-value list: the value an
object associates with a key. -/
def keyLookup (k : String) : List (String × JsonV) → Option JsonV
  | [] => none
  | p :: ps => if p.1 = k then some p.2 else keyLookup k ps

theorem keyLookup_append (k : String) (l1 l2 : List (String × JsonV)) :
    keyLookup k (l1 ++ l2) = (keyLookup k l1).or (keyLookup k l2) := by
  induction l1 with
  | nil => simp [keyLookup]
  | cons p l1 ih =>
    by_cases h : p.1 = k <;> simp [keyLookup, h, ih]

theorem keyLookup_eq_none {d : List (String × JsonV)} {k : String}
    (h : ∀ p ∈ d, p.1 ≠ k) : keyLookup k d = none := by
  induction d with
  | nil => rfl
  | cons p d ih =>
    simp only [List.mem_cons, forall_eq_or_imp] at h
    simp [keyLookup, h.1, ih h.2]

theorem keyLookup_map_replace (d : List (String × JsonV)) (k : String) (v : JsonV)
    (k2 : String) :
    keyLookup k2 (d.map (fun p => if p.1 = k then (k, v) else p)) =
      if k2 = k then (if d.any (fun p => p.1 = k) then some v else none)
      else keyLookup k2 d := by
  induction d with
  | nil => by_cases h : k2 = k <;> simp [keyLookup, h]
  | cons p d ih =>
    by_cases hp : p.1 = k
    · by_cases h2 : k2 = k
      · subst h2; simp [keyLookup, hp, ih]
      · have hpk : p.1 ≠ k2 := fun h => h2 (by rw [← h, hp])
        have hk2 : k ≠ k2 := fun h => h2 h.symm
        simp [keyLookup, hp, hpk, hk2, ih, h2]
    · by_cases hpk : p.1 = k2
      · have h2 : ¬ k2 = k := fun h => hp (by rw [hpk, h])
        simp [keyLookup, hp, hpk, h2]
      · simp only [keyLookup, hpk, if_false, ih, List.map_cons, List.any_cons, hp,
          decide_eq_true_eq, ite_false, decide_eq_false hp, Bool.false_or, reduceIte,
          decide_False]

theorem dictInsert_keyLookup (d : List (String × JsonV)) (k : String) (v : JsonV)
    (k2 : String) :
    keyLookup k2 (dictInsert d k v) = if k2 = k then some v else keyLookup k2 d := by
  unfold dictInsert
  by_cases hmem : d.any (fun p => p.1 = k)
  · rw [if_pos hmem, keyLookup_map_replace]
    by_cases h2 : k2 = k <;> simp [h2, hmem]
  · rw [if_neg hmem, keyLookup_append]
    simp only [List.any_eq_true, decide_eq_true_eq, not_exists] at hmem
    push_neg at hmem
    by_cases h2 : k2 = k
    · subst h2
      rw [keyLookup_eq_none hmem]
      simp [keyLookup, Option.or]
    · have : k ≠ k2 := fun h => h2 h.symm
      simp only [keyLookup, this, if_neg, if_false]
      cases hk : keyLookup k2 d <;> simp [Option.or, h2]

theorem foldl_dictInsert_keyLookup (ps : List (String × JsonV))
    (d : List (String × JsonV)) (k : String) :
    keyLookup k (ps.foldl (fun d p => dictInsert d p.1 p.2) d) =
      (keyLookup k ps.reverse).or (keyLookup k d) := by
  induction ps generalizing d with
  | nil => simp [keyLookup]
  | cons p ps ih =>
    rw [List.foldl_cons, ih, List.reverse_cons, keyLookup_append,
      dictInsert_keyLookup, Option.or_assoc]
    congr 1
    by_cases h : k = p.1
    · simp [keyLookup, h, Option.or]
    · have h2 : ¬ p.1 = k := fun e => h e.symm
      simp [keyLookup, h, h2, Option.or]

theorem dictOfPairs_keyLookup (ps : List (String × JsonV)) (k : String) :
    keyLookup k (dictOfPairs ps) = keyLookup k ps.reverse := by
  rw [dictOfPairs, foldl_dictInsert_keyLookup]
  cases h : keyLookup k ps.reverse <;> simp [keyLookup, Option.or]

theorem mem_keys_dictInsert (d : List (String × JsonV)) (k : String) (v : JsonV)
    (k2 : String) :
    k2 ∈ (dictInsert d k v).map Prod.fst ↔ k2 = k ∨ k2 ∈ d.map Prod.fst := by
  unfold dictInsert
  by_cases hmem : d.any (fun p => p.1 = k)
  · rw [if_pos hmem]
    simp only [List.any_eq_true, decide_eq_true_eq] at hmem
    obtain ⟨p0, hp0, hp0k⟩ := hmem
    have hkeys : (d.map (fun p => if p.1 = k then (k, v) else p)).map Prod.fst =
        d.map Prod.fst := by
      rw [List.map_map]
      apply List.map_congr_left
      intro p _
      by_cases hp : p.1 = k <;> simp [hp]
    rw [hkeys]
    constructor
    · exact Or.inr
    · rintro (rfl | h)
      · exact List.mem_map.mpr ⟨p0, hp0, hp0k⟩
      · exact h
  · rw [if_neg hmem]
    simp [or_comm]

theorem mem_keys_foldl (ps : List (String × JsonV)) (d : List (String × JsonV))
    (k : String) :
    k ∈ (ps.foldl (fun d p => dictInsert d p.1 p.2) d).map Prod.fst ↔
      k ∈ ps.map Prod.fst ∨ k ∈ d.map Prod.fst := by
  induction ps generalizing d with
  | nil => simp
  | cons p ps ih =>
    rw [List.foldl_cons, ih, mem_keys_dictInsert]
    simp [or_comm, or_assoc]
    tauto

theorem mem_keys_dictOfPairs (ps : List (String × JsonV)) (k : String) :
    k ∈ (dictOfPairs ps).map Prod.fst ↔ k ∈ ps.map Prod.fst := by
  rw [dictOfPairs, mem_keys_foldl]
  simp

theorem nodup_keys_dictInsert (d : List (String × JsonV)) (k : String) (v : JsonV)
    (h : (d.map Prod.fst).Nodup) : ((dictInsert d k v).map Prod.fst).Nodup := by
  unfold dictInsert
  by_cases hmem : d.any (fun p => p.1 = k)
  · rw [if_pos hmem]
    have hkeys : (d.map (fun p => if p.1 = k then (k, v) else p)).map Prod.fst =
        d.map Prod.fst := by
      rw [List.map_map]
      apply List.map_congr_left
      intro p _
      by_cases hp : p.1 = k <;> simp [hp]
    rw [hkeys]; exact h
  · rw [if_neg hmem]
    simp only [List.any_eq_true, decide_eq_true_eq] at hmem
    push_neg at hmem
    rw [List.map_append, List.nodup_append]
    refine ⟨h, by simp, ?_⟩
    intro a ha
    simp only [List.map_cons, List.map_nil, List.mem_singleton]
    intro hak
    obtain ⟨p, hp, hpa⟩ := List.mem_map.mp ha
    exact hmem p hp (by rw [hpa, hak])

theorem nodup_keys_foldl (ps : List (String × JsonV)) (d : List (String × JsonV))
    (h : (d.map Prod.fst).Nodup) :
    ((ps.foldl (fun d p => dictInsert d p.1 p.2) d).map Prod.fst).Nodup := by
  induction ps generalizing d with
  | nil => exact h
  | cons p ps ih => exact ih _ (nodup_keys_dictInsert _ _ _ h)

theorem nodup_keys_dictOfPairs (ps : List (String × JsonV)) :
    ((dictOfPairs ps).map Prod.fst).Nodup :=
  nodup_keys_foldl ps [] (by simp)

theorem unpackAll_eq (cs : List Xml) : unpackAll cs = cs.mapM _unpack_xml := by
  induction cs with
  | nil => rfl
  | cons c cs ih =>
    rw [unpackAll, ih, List.mapM_cons]

theorem unpackPairs_eq (cs : List Xml) :
    unpackPairs cs = (cs.filter (fun c => c.tag ≠ "")).mapM
      (fun c => (_unpack_xml c).map (fun v => (c.tag, v))) := by
  induction cs with
  | nil => rfl
  | cons c cs ih =>
    rw [unpackPairs]
    by_cases h : c.tag = ""
    · simp only [h, if_true, List.filter_cons, decide_eq_true_eq, ne_eq,
        not_true_eq_false, decide_False, reduceIte, ite_false]
      exact ih
    · simp only [h, if_false, List.filter_cons, ne_eq, not_false_eq_true,
        decide_True, reduceIte, ite_true, ih, reduceCtorEq]
      rw [List.mapM_cons]
      cases _unpack_xml c <;>
        cases List.mapM (fun c => (_unpack_xml c).map (fun v => (c.tag, v)))
          (cs.filter (fun c => !decide (c.tag = ""))) <;>
        rfl

theorem mapM_tags {l : List Xml} {ps : List (String × JsonV)}
    (h : l.mapM (fun c => (_unpack_xml c).map (fun v => (c.tag, v))) = some ps) :
    ps.map Prod.fst = l.map Xml.tag := by
  induction l generalizing ps with
  | nil =>
    rw [List.mapM_nil] at h
    cases h
    rfl
  | cons c l ih =>
    rw [List.mapM_cons] at h
    cases hc : _unpack_xml c with
    | none => rw [hc] at h; cases h
    | some v =>
      rw [hc] at h
      cases hr : List.mapM (fun c => (_unpack_xml c).map (fun v => (c.tag, v))) l with
      | none => rw [hr] at h; cases h
      | some rest =>
        rw [hr] at h
        cases h
        simp [ih hr]

/-- Counterexample to C3 as stated: a leaf tagged `attendees` is not in
the numeric set and has text `true`, yet the transform yields the empty
array (the should-be-list branch is checked first), not the boolean
`true`. -/
theorem unpack_attendees_true_leaf :
    _unpack_xml (Xml.mk "attendees" (some "true") []) = some (JsonV.arr []) ∧
    some (JsonV.arr []) ≠ some (JsonV.bool true) := by
  constructor
  · simp [_unpack_xml, _should_be_list, unpackAll]
  · simp

/-- C3 (amended): the transform maps a `participantCount` leaf with
text `7` to the integer 7; a leaf whose tag is in neither the numeric
set nor the should-be-list set with stripped text `true` to the boolean
true; an `attendees` node with zero children to the empty array; any
node with at least one child whose tag is not in the should-be-list set
to an object whose keys are exactly its (nonempty-tagged) children's
tags, without duplicates and without crashing, the value at each key
being that of the last child with that tag; a leaf with empty or absent
text whose tag is in neither set to null; and any other leaf to its
stripped text string. -/
theorem unpack_xml_spec :
    (_unpack_xml (Xml.mk "participantCount" (some "7") []) = some (JsonV.num 7))
    ∧ (∀ t s, t ∉ _should_be_number → t ∉ _should_be_list → pyStrip s = "true" →
        _unpack_xml (Xml.mk t (some s) []) = some (JsonV.bool true))
    ∧ (∀ txt, _unpack_xml (Xml.mk "attendees" txt []) = some (JsonV.arr []))
    ∧ (∀ t txt cs ps, t ∉ _should_be_list → cs ≠ [] → unpackPairs cs = some ps →
        _unpack_xml (Xml.mk t txt cs) = some (JsonV.obj (dictOfPairs ps))
        ∧ ps.map Prod.fst = (cs.filter (fun c => c.tag ≠ "")).map Xml.tag
        ∧ ((dictOfPairs ps).map Prod.fst).Nodup
        ∧ (∀ k, k ∈ (dictOfPairs ps).map Prod.fst ↔ k ∈ ps.map Prod.fst)
        ∧ (∀ k, keyLookup k (dictOfPairs ps) = keyLookup k ps.reverse))
    ∧ (∀ t txt, t ∉ _should_be_number → t ∉ _should_be_list →
        (txt = none ∨ ∃ s, txt = some s ∧ pyStrip s = "") →
        _unpack_xml (Xml.mk t txt []) = some JsonV.null)
    ∧ (∀ t s, t ∉ _should_be_number → t ∉ _should_be_list →
        pyStrip s ≠ "" → pyStrip s ≠ "true" → pyStrip s ≠ "false" →
        _unpack_xml (Xml.mk t (some s) []) = some (JsonV.str (pyStrip s))) := by
  refine ⟨?_, ?_, ?_, ?_, ?_, ?_⟩
  · rw [_unpack_xml]
    norm_num [_should_be_list, _should_be_number]
    rfl
  · intro t s hn hl hs
    rw [_unpack_xml]
    simp [hn, hl, hs]
  · intro txt
    simp [_unpack_xml, _should_be_list, unpackAll]
  · intro t txt cs ps hl hcs hps
    have hu : _unpack_xml (Xml.mk t txt cs) = some (JsonV.obj (dictOfPairs ps)) := by
      rw [_unpack_xml]
      have hlen : cs.length ≠ 0 := by simpa using hcs
      simp [hl, hlen, hps]
    refine ⟨hu, ?_, nodup_keys_dictOfPairs ps, fun k => mem_keys_dictOfPairs ps k,
      fun k => dictOfPairs_keyLookup ps k⟩
    have := unpackPairs_eq cs
    rw [hps] at this
    exact (mapM_tags this.symm).trans (by simp)
  · intro t txt hn hl htxt
    rw [_unpack_xml]
    rcases htxt with rfl | ⟨s, rfl, hs⟩
    · simp [hn, hl]
    · simp [hn, hl, hs]
  · intro t s hn hl h1 h2 h3
    rw [_unpack_xml]
    simp [hn, hl, h1, h2, h3]

/-- Witness for C3 (amended) at a concrete leaf with text `true` and a
tag outside both coercion sets. -/
theorem unpack_xml_spec_witness :
    _unpack_xml (Xml.mk "x" (some "true") []) = some (JsonV.bool true) :=
  unpack_xml_spec.2.1 "x" "true" (by decide) (by decide) (by decide)

mutual

/-- The same tree with the text content of every non-leaf node removed. -/
def eraseBranchText : Xml → Xml
  | .mk t tx cs => .mk t (if cs.length ≠ 0 then none else tx) (eraseList cs)

def eraseList : List Xml → List Xml
  | [] => []
  | c :: cs => eraseBranchText c :: eraseList cs

end

theorem eraseList_eq_map (cs : List Xml) : eraseList cs = cs.map eraseBranchText := by
  induction cs with
  | nil => rfl
  | cons c cs ih => rw [eraseList, ih, List.map_cons]

theorem eraseBranchText_tag (c : Xml) : (eraseBranchText c).tag = c.tag := by
  cases c
  rw [eraseBranchText]
  rfl

theorem xml_induction {P : Xml → Prop}
    (step : ∀ t tx cs, (∀ c ∈ cs, P c) → P (Xml.mk t tx cs)) :
    ∀ e, P e
  | .mk t tx cs => step t tx cs (fun c hc => xml_induction step c)
  decreasing_by
    have := List.sizeOf_lt_of_mem hc
    simp only [Xml.mk.sizeOf_spec]
    omega

theorem unpackAll_erase (cs : List Xml)
    (ih : ∀ c ∈ cs, _unpack_xml (eraseBranchText c) = _unpack_xml c) :
    unpackAll (eraseList cs) = unpackAll cs := by
  induction cs with
  | nil => rfl
  | cons c cs ih2 =>
    simp only [List.mem_cons, forall_eq_or_imp] at ih
    rw [eraseList, unpackAll, unpackAll, ih.1, ih2 ih.2]

theorem unpackPairs_erase (cs : List Xml)
    (ih : ∀ c ∈ cs, _unpack_xml (eraseBranchText c) = _unpack_xml c) :
    unpackPairs (eraseList cs) = unpackPairs cs := by
  induction cs with
  | nil => rfl
  | cons c cs ih2 =>
    simp only [List.mem_cons, forall_eq_or_imp] at ih
    rw [eraseList, unpackPairs, unpackPairs, eraseBranchText_tag, ih.1, ih2 ih.2]

theorem eraseList_length (cs : List Xml) : (eraseList cs).length = cs.length := by
  rw [eraseList_eq_map, List.length_map]

/-- C10: the transform of any node is unchanged when the text of every
non-leaf node is erased, and a node with at least one child whose tag
is not in the should-be-list set becomes an object built only from its
children, independently of its own text. -/
theorem unpack_ignores_branch_text :
    (∀ e, _unpack_xml (eraseBranchText e) = _unpack_xml e)
    ∧ (∀ t txt cs, cs ≠ [] → t ∉ _should_be_list →
        (_unpack_xml (Xml.mk t txt cs) =
          (unpackPairs cs).map (fun ps => JsonV.obj (dictOfPairs ps))
        ∧ _unpack_xml (Xml.mk t txt cs) = _unpack_xml (Xml.mk t none cs))) := by
  constructor
  · apply xml_induction
    intro t tx cs ih
    rw [eraseBranchText]
    by_cases hl : t ∈ _should_be_list
    · have ht : t ≠ "" := by
        rintro rfl
        simp [_should_be_list] at hl
      rw [_unpack_xml, _unpack_xml]
      simp [hl, ht, unpackAll_erase cs ih]
    · by_cases hc : cs.length = 0
      · have hcs : cs = [] := List.length_eq_zero.mp hc
        subst hcs
        rw [eraseList]
        simp
      · rw [_unpack_xml, _unpack_xml]
        have hc2 : (eraseList cs).length = 0 ↔ False := by
          rw [eraseList_length]; simp [hc]
        simp [hl, hc, hc2, unpackPairs_erase cs ih]
  · intro t txt cs hcs hl
    have hlen : cs.length = 0 ↔ False := by
      simp [List.length_eq_zero, hcs]
    constructor
    · rw [_unpack_xml]
      simp [hl, hlen]
    · rw [_unpack_xml]
      conv_rhs => rw [_unpack_xml]
      simp [hl, hlen]

/-- Witness for C10 at a concrete branch node carrying mixed text. -/
theorem unpack_ignores_branch_text_witness :
    _unpack_xml (Xml.mk "meeting" (some "MIXED") [Xml.mk "a" (some "1") []]) =
      _unpack_xml (Xml.mk "meeting" none [Xml.mk "a" (some "1") []]) :=
  (unpack_ignores_branch_text.2 "meeting" (some "MIXED") [Xml.mk "a" (some "1") []]
    (by simp) (by decide)).2

/-- Helper: filtering a stably ordered insertion by a key value. -/
theorem filter_orderedInsert_key (v : Int) (x : Xml × Int) (l : List (Xml × Int)) :
    (List.orderedInsert leKey x l).filter (fun p => decide (p.2 = v)) =
      if x.2 = v then x :: l.filter (fun p => decide (p.2 = v))
      else l.filter (fun p => decide (p.2 = v)) := by
  induction l with
  | nil =>
    by_cases hx : x.2 = v <;> simp [List.orderedInsert, List.filter_cons, hx]
  | cons b l ih =>
    by_cases hxb : leKey x b
    · rw [List.orderedInsert, if_pos hxb]
      by_cases hx : x.2 = v <;> simp [List.filter_cons, hx]
    · rw [List.orderedInsert, if_neg hxb]
      have hlt : b.2 < x.2 := by
        have := hxb
        unfold leKey at this
        omega
      by_cases hx : x.2 = v
      · have hb : ¬ b.2 = v := by omega
        simp [List.filter_cons, hb, ih, hx]
      · simp [List.filter_cons, ih, hx]

/-- Helper: insertion sort preserves the subsequence of elements
carrying any fixed key (stability). -/
theorem filter_insertionSort_key (v : Int) (l : List (Xml × Int)) :
    (List.insertionSort leKey l).filter (fun p => decide (p.2 = v)) =
      l.filter (fun p => decide (p.2 = v)) := by
  induction l with
  | nil => rfl
  | cons a l ih =>
    rw [List.insertionSort, filter_orderedInsert_key]
    by_cases ha : a.2 = v <;> simp [List.filter_cons, ha, ih]

/-- Helper: when every meeting has a usable sort key, decorating
succeeds and pairs each meeting with its key. -/
theorem mapM_attachKeys (key : String) (ms : List Xml)
    (h : ∀ m ∈ ms, (sortkey m key).isSome) :
    ∃ pairs, ms.mapM (fun m => (sortkey m key).map (fun k => (m, k))) = some pairs
      ∧ pairs.map Prod.fst = ms
      ∧ ∀ p ∈ pairs, sortkey p.1 key = some p.2 := by
  induction ms with
  | nil => exact ⟨[], rfl, rfl, by simp⟩
  | cons m ms ih =>
    simp only [List.mem_cons, forall_eq_or_imp] at h
    obtain ⟨k, hk⟩ := Option.isSome_iff_exists.mp h.1
    obtain ⟨rest, hrest, hfst, hall⟩ := ih h.2
    refine ⟨(m, k) :: rest, ?_, by simp [hfst], ?_⟩
    · rw [List.mapM_cons, hk, hrest]
      rfl
    · intro p hp
      rcases List.mem_cons.mp hp with rfl | hp2
      · exact hk
      · exact hall p hp2

/-- Helper: a successful decoration means every meeting had a usable
sort key. -/
theorem mapM_attachKeys_isSome (key : String) (ms : List Xml)
    (pairs : List (Xml × Int))
    (h : ms.mapM (fun m => (sortkey m key).map (fun k => (m, k))) = some pairs) :
    ∀ m ∈ ms, (sortkey m key).isSome := by
  induction ms generalizing pairs with
  | nil => simp
  | cons m ms ih =>
    rw [List.mapM_cons] at h
    cases hk : sortkey m key with
    | none => rw [hk] at h; cases h
    | some k =>
      rw [hk] at h
      cases hr : ms.mapM (fun m => (sortkey m key).map (fun k => (m, k))) with
      | none => rw [hr] at h; cases h
      | some rest =>
        intro m2 hm2
        rcases List.mem_cons.mp hm2 with rfl | hm3
        · simp [hk]
        · exact ih rest hr m2 hm3

/-- C6: when every meeting element has the sort field with
integer-parseable text, `cmd_meet_list` sorts the meetings into an
ascending stable order by that integer key (a permutation, pairwise
ascending, and elements with equal keys keep their original relative
order); when the field is missing or non-numeric on some element,
sorting fails. -/
theorem cmd_meet_list_sort_spec (key : String) (ms : List Xml) :
    ((∀ m ∈ ms, (sortkey m key).isSome) →
      ∃ l, cmd_meet_list_sort key ms = some l
        ∧ l.Perm ms
        ∧ l.Pairwise (fun a b => ∃ ka kb, sortkey a key = some ka ∧
            sortkey b key = some kb ∧ ka ≤ kb)
        ∧ ∀ v : Int, l.filter (fun m => decide (sortkey m key = some v)) =
            ms.filter (fun m => decide (sortkey m key = some v)))
    ∧ ((∃ m ∈ ms, sortkey m key = none) → cmd_meet_list_sort key ms = none) := by
  constructor
  · intro h
    obtain ⟨pairs, hpairs, hfst, hall⟩ := mapM_attachKeys key ms h
    refine ⟨(List.insertionSort leKey pairs).map Prod.fst, ?_, ?_, ?_, ?_⟩
    · rw [cmd_meet_list_sort, hpairs]
      rfl
    · rw [← hfst]
      exact (List.perm_insertionSort leKey pairs).map Prod.fst
    · rw [List.pairwise_map]
      have hsorted : (List.insertionSort leKey pairs).Pairwise leKey :=
        List.sorted_insertionSort leKey pairs
      refine hsorted.imp_of_mem ?_
      intro a b ha hb hab
      have ha2 : a ∈ pairs := (List.mem_insertionSort leKey).mp ha
      have hb2 : b ∈ pairs := (List.mem_insertionSort leKey).mp hb
      exact ⟨a.2, b.2, hall a ha2, hall b hb2, hab⟩
    · intro v
      rw [List.filter_map]
      have hcong1 : (List.insertionSort leKey pairs).filter
          ((fun m => decide (sortkey m key = some v)) ∘ Prod.fst) =
          (List.insertionSort leKey pairs).filter (fun p => decide (p.2 = v)) := by
        apply List.filter_congr
        intro p hp
        have hp2 : p ∈ pairs := (List.mem_insertionSort leKey).mp hp
        have := hall p hp2
        simp only [Function.comp_apply, this, Option.some_inj]
      have hcong2 : pairs.filter (fun p => decide (p.2 = v)) =
          pairs.filter ((fun m => decide (sortkey m key = some v)) ∘ Prod.fst) := by
        apply List.filter_congr
        intro p hp
        have := hall p hp
        simp only [Function.comp_apply, this, Option.some_inj]
      rw [hcong1, filter_insertionSort_key, hcong2, ← List.filter_map, hfst]
  · rintro ⟨m, hm, hnone⟩
    cases hmm : ms.mapM (fun m => (sortkey m key).map (fun k => (m, k))) with
    | none => rw [cmd_meet_list_sort, hmm]; rfl
    | some pairs =>
      have := mapM_attachKeys_isSome key ms pairs hmm m hm
      rw [hnone] at this
      cases this

def meetSortA : Xml :=
  Xml.mk "meeting" none [Xml.mk "meetingID" (some "A") [], Xml.mk "k" (some "3") []]

def meetSortB : Xml :=
  Xml.mk "meeting" none [Xml.mk "meetingID" (some "B") [], Xml.mk "k" (some "1") []]

def meetSortC : Xml :=
  Xml.mk "meeting" none [Xml.mk "meetingID" (some "C") [], Xml.mk "k" (some "1") []]

/-- Witness for C6 at three concrete meetings with keys 3, 1, 1: the
sort yields the 1-keyed pair in original order followed by the 3. -/
theorem cmd_meet_list_sort_spec_witness :
    (∀ m ∈ [meetSortA, meetSortB, meetSortC], (sortkey m "k").isSome)
    ∧ (∃ l, cmd_meet_list_sort "k" [meetSortA, meetSortB, meetSortC] = some l
        ∧ l.Perm [meetSortA, meetSortB, meetSortC]
        ∧ l.Pairwise (fun a b => ∃ ka kb, sortkey a "k" = some ka ∧
            sortkey b "k" = some kb ∧ ka ≤ kb)
        ∧ ∀ v : Int, l.filter (fun m => decide (sortkey m "k" = some v)) =
            [meetSortA, meetSortB, meetSortC].filter
              (fun m => decide (sortkey m "k" = some v)))
    ∧ cmd_meet_list_sort "k" [meetSortA, meetSortB, meetSortC] =
        some [meetSortB, meetSortC, meetSortA] :=
  ⟨by decide,
   (cmd_meet_list_sort_spec "k" [meetSortA, meetSortB, meetSortC]).1 (by decide),
   by rfl⟩

/-- Helper: a rendered timestamp value is never the empty string. -/
theorem time_value_ne_empty (ts v : String) : ts ++ " (" ++ v ++ ")" ≠ "" := by
  intro h
  have h2 := congrArg String.data h
  simp [String.data_append] at h2

/-- C8: for every node whose tag is `starttime` or `endtime` up to
case, the human formatter renders its value as the converted UTC string
followed by the original (stripped) millisecond value in parentheses,
`<utc> (<millis>)`, then escaped by `safe_str` like any other value. -/
theorem format_human_time (fmtTs : String → Option String) (tag txt ind ts : String)
    (cs : List Xml)
    (htag : pyLower tag = "starttime" ∨ pyLower tag = "endtime")
    (hts : fmtTs (pyStrip txt) = some ts) :
    format_human fmtTs (Xml.mk tag (some txt) cs) ind =
      (formatChildren fmtTs cs (ind ++ "  ")).map
        (fun rest => ind ++ tag ++ ":" ++ " " ++
          safe_str (ts ++ " (" ++ pyStrip txt ++ ")") ++ rest) := by
  rw [format_human]
  simp only [Option.map_some, htag, hts, if_pos, time_value_ne_empty, ne_eq,
    not_false_eq_true, ite_true, reduceIte, Option.bind_eq_bind, Option.some_bind]
  cases hfc : formatChildren fmtTs cs (ind ++ "  ") <;>
    simp [hfc, hts, time_value_ne_empty]

/-- Witness for C8 at a concrete `startTime` leaf holding
`1600000000000` milliseconds. -/
theorem format_human_time_witness :
    format_human (fun _ => some "2020-09-13 12:26:40+00:00")
        (Xml.mk "startTime" (some "1600000000000") []) "" =
      (formatChildren (fun _ => some "2020-09-13 12:26:40+00:00") [] ("" ++ "  ")).map
        (fun rest => "" ++ "startTime" ++ ":" ++ " " ++
          safe_str ("2020-09-13 12:26:40+00:00" ++ " (" ++ pyStrip "1600000000000" ++ ")")
          ++ rest) :=
  format_human_time (fun _ => some "2020-09-13 12:26:40+00:00") "startTime"
    "1600000000000" "" "2020-09-13 12:26:40+00:00" [] (Or.inl (by decide)) rfl

/-- C7: without the confirm flag, `cmd_meet_nuke` prints exactly one
preview line per running meeting, marked `(dry run) ` and carrying the
meeting id, participant count and name, and issues zero end calls; an
end call can only ever be recorded when the confirm flag is set. -/
theorem cmd_meet_nuke_dry_run (ask : Bool) (answers : List String)
    (meetings : List Xml) :
    ((∀ m ∈ meetings, (nukePreviewLine false m).isSome) →
      ∃ lines, meetings.mapM (nukePreviewLine false) = some lines ∧
        cmd_meet_nuke false ask answers meetings = some (lines, []))
    ∧ (∀ r, cmd_meet_nuke false ask answers meetings = some r → r.2 = [])
    ∧ (∀ m idE usersE nameE, m.find "meetingID" = some idE →
        m.find "participantCount" = some usersE →
        m.find "meetingName" = some nameE →
        nukePreviewLine false m = some ("(dry run) " ++ "id=" ++ pyStr idE.text ++
          " user=" ++ pyStr usersE.text ++ " name=" ++ pyReprOpt nameE.text)) := by
  refine ⟨?_, ?_, ?_⟩
  · intro h
    induction meetings with
    | nil => exact ⟨[], rfl, rfl⟩
    | cons m rest ih =>
      simp only [List.mem_cons, forall_eq_or_imp] at h
      obtain ⟨line, hline⟩ := Option.isSome_iff_exists.mp h.1
      obtain ⟨lines, hlines, hrun⟩ := ih h.2
      refine ⟨line :: lines, ?_, ?_⟩
      · rw [List.mapM_cons, hline, hlines]
        rfl
      · rw [cmd_meet_nuke, hline]
        simp [hrun]
  · intro r hr
    induction meetings generalizing r with
    | nil =>
      rw [cmd_meet_nuke] at hr
      cases hr
      rfl
    | cons m rest ih =>
      rw [cmd_meet_nuke] at hr
      cases hline : nukePreviewLine false m with
      | none => rw [hline] at hr; cases hr
      | some line =>
        rw [hline] at hr
        cases hrest : cmd_meet_nuke false ask answers rest with
        | none => simp [hrest] at hr
        | some r2 =>
          simp only [Option.some_bind, if_false, Bool.false_eq_true, reduceIte,
            hrest] at hr
          cases hr
          exact ih r2 hrest
  · intro m idE usersE nameE h1 h2 h3
    rw [nukePreviewLine, h1, h2, h3]
    rfl

def nukeMeet1 : Xml :=
  Xml.mk "meeting" none [Xml.mk "meetingID" (some "m1") [],
    Xml.mk "participantCount" (some "3") [], Xml.mk "meetingName" (some "Room 1") []]

def nukeMeet2 : Xml :=
  Xml.mk "meeting" none [Xml.mk "meetingID" (some "m2") [],
    Xml.mk "participantCount" (some "5") [], Xml.mk "meetingName" (some "Room 2") []]

/-- Witness for C7 against two concrete meetings: two `(dry run)` lines
and zero end calls. -/
theorem cmd_meet_nuke_dry_run_witness :
    (∀ m ∈ [nukeMeet1, nukeMeet2], (nukePreviewLine false m).isSome)
    ∧ (∃ lines, [nukeMeet1, nukeMeet2].mapM (nukePreviewLine false) = some lines ∧
        cmd_meet_nuke false false [] [nukeMeet1, nukeMeet2] = some (lines, []))
    ∧ cmd_meet_nuke false false [] [nukeMeet1, nukeMeet2] =
        some (["(dry run) id=m1 user=3 name=" ++ pyReprStr "Room 1",
               "(dry run) id=m2 user=5 name=" ++ pyReprStr "Room 2"], []) :=
  ⟨by decide,
   (cmd_meet_nuke_dry_run false [] [nukeMeet1, nukeMeet2]).1 (by decide),
   by rfl⟩

/-- C9: with the confirm flag and prompting enabled, an answer that
strips and lowercases to the empty string is treated as acceptance
exactly like an explicit `y` (same output, same end call), while an
answer that is none of the empty string, `y` or `a` skips only the
current meeting and continues prompting for the rest. -/
theorem cmd_meet_nuke_prompt (m : Xml) (rest : List Xml) (line : String)
    (idE : Xml) (tl : List String)
    (hline : nukePreviewLine true m = some line)
    (hid : m.find "meetingID" = some idE) :
    (∀ a, pyLower (pyStrip a) = "" →
      cmd_meet_nuke true true (a :: tl) (m :: rest) =
        cmd_meet_nuke true true ("y" :: tl) (m :: rest))
    ∧ (∀ a r, (pyLower (pyStrip a) = "" ∨ pyLower (pyStrip a) = "y") →
        cmd_meet_nuke true true tl rest = some r →
        cmd_meet_nuke true true (a :: tl) (m :: rest) =
          some (line :: r.1, idE.text :: r.2))
    ∧ (∀ a r, pyLower (pyStrip a) ≠ "" → pyLower (pyStrip a) ≠ "y" →
        pyLower (pyStrip a) ≠ "a" →
        cmd_meet_nuke true true tl rest = some r →
        cmd_meet_nuke true true (a :: tl) (m :: rest) = some (line :: r.1, r.2)) := by
  refine ⟨?_, ?_, ?_⟩
  · intro a ha
    have hnota : pyLower (pyStrip a) ≠ "a" := by rw [ha]; decide
    have hy : pyLower (pyStrip "y") = "y" := by decide
    rw [cmd_meet_nuke, cmd_meet_nuke, hline]
    simp [ha, hnota, hy]
  · intro a r ha hr
    have hnota : pyLower (pyStrip a) ≠ "a" := by
      rcases ha with ha | ha <;> rw [ha] <;> decide
    rw [cmd_meet_nuke, hline]
    simp [ha, hnota, hid, hr]
  · intro a r h1 h2 h3 hr
    rw [cmd_meet_nuke, hline]
    simp [h1, h2, h3, hr]

/-- Witness for C9 at one concrete meeting: a bare Enter ends it just
like `y`, while answer `n` skips it. -/
theorem cmd_meet_nuke_prompt_witness :
    (nukePreviewLine true nukeMeet1 = some ("id=m1 user=3 name=" ++ pyReprStr "Room 1"))
    ∧ (Xml.find nukeMeet1 "meetingID" = some (Xml.mk "meetingID" (some "m1") []))
    ∧ cmd_meet_nuke true true [""] [nukeMeet1] =
        cmd_meet_nuke true true ["y"] [nukeMeet1]
    ∧ cmd_meet_nuke true true [""] [nukeMeet1] =
        some (["id=m1 user=3 name=" ++ pyReprStr "Room 1"], [some "m1"])
    ∧ cmd_meet_nuke true true ["n"] [nukeMeet1] =
        some (["id=m1 user=3 name=" ++ pyReprStr "Room 1"], []) :=
  ⟨rfl, rfl,
   (cmd_meet_nuke_prompt nukeMeet1 [] _ _ [] rfl rfl).1 "" (by decide),
   (cmd_meet_nuke_prompt nukeMeet1 [] _ _ [] rfl rfl).2.1 "" ([], []) (Or.inl (by decide))
     rfl,
   (cmd_meet_nuke_prompt nukeMeet1 [] _ _ [] rfl rfl).2.2 "n" ([], []) (by decide)
     (by decide) (by decide) rfl⟩

def createClient : BBBApiClient := ⟨"https://h/bigbluebutton/api", "sec"⟩

def createdResp : Xml :=
  Xml.mk "response" none [Xml.mk "returncode" (some "SUCCESS") [],
    Xml.mk "createTime" (some "123") []]

/-- C4 exhibits the moderator-link defect at a concrete create call
with two requested moderator names: because `print(name + ":", link)`
sits outside the `for` loop, only the last name's link line is printed
(one link line instead of one per name), and no line for the first
name appears. -/
theorem cmd_meet_create_last_only :
    cmd_meet_create_modlines createClient "mid" ["Alice", "Bob"] createdResp =
      some ["", "Bob" ++ ": " ++ createClient.getJoinLink
        [("meetingID", some "mid"), ("fullName", some "Bob"),
         ("createTime", some "123"), ("role", some "MODERATOR")]]
    ∧ (["", "Bob" ++ ": " ++ createClient.getJoinLink
        [("meetingID", some "mid"), ("fullName", some "Bob"),
         ("createTime", some "123"), ("role", some "MODERATOR")]] : List String).length = 2
    ∧ ("Alice" ++ ": " ++ createClient.getJoinLink
        [("meetingID", some "mid"), ("fullName", some "Alice"),
         ("createTime", some "123"), ("role", some "MODERATOR")]) ∉
      (["", "Bob" ++ ": " ++ createClient.getJoinLink
        [("meetingID", some "mid"), ("fullName", some "Bob"),
         ("createTime", some "123"), ("role", some "MODERATOR")]] : List String) := by
  refine ⟨by rfl, by rfl, ?_⟩
  intro hmem
  rcases List.mem_cons.mp hmem with h | h
  · have h2 := congrArg String.data h
    simp [String.data_append] at h2
  · rcases List.mem_singleton.mp h with h
    have h2 := congrArg String.data h
    simp [String.data_append] at h2

/-- Helper: when no send fails, the chat loop sends to every target in
order. -/
theorem chatLoop_all_ok (fail : Option String → Bool) (l : List (Option String))
    (h : ∀ t ∈ l, fail t = false) : chatLoop fail l = (l, true) := by
  induction l with
  | nil => rfl
  | cons t l ih =>
    simp only [List.mem_cons, forall_eq_or_imp] at h
    rw [chatLoop]
    simp [h.1, ih h.2]

/-- Helper: the first failing send ends the chat loop; later targets
get no send. -/
theorem chatLoop_abort (fail : Option String → Bool) (pre : List (Option String))
    (t : Option String) (post : List (Option String))
    (hpre : ∀ x ∈ pre, fail x = false) (ht : fail t = true) :
    chatLoop fail (pre ++ t :: post) = (pre ++ [t], false) := by
  induction pre with
  | nil =>
    rw [List.nil_append, chatLoop]
    simp [ht]
  | cons x pre ih =>
    simp only [List.mem_cons, forall_eq_or_imp] at hpre
    rw [List.cons_append, chatLoop]
    simp [hpre.1, ih hpre.2]

/-- C5 (amended): under `BROADCAST` the handler resolves one target per
currently running meeting and sends sequentially, one call per meeting
when every send succeeds; but an `ApiError` on one send propagates and
aborts the sends to the remaining meetings. -/
theorem cmd_meet_chat_spec (fail : Option String → Bool) (id : String)
    (running : List Xml) (targets : List (Option String))
    (h : cmd_meet_chat_targets id running = some targets) :
    ((∀ t ∈ targets, fail t = false) →
      cmd_meet_chat fail id running = some (targets, true))
    ∧ (∀ pre t post, targets = pre ++ t :: post → (∀ x ∈ pre, fail x = false) →
        fail t = true →
        cmd_meet_chat fail id running = some (pre ++ [t], false))
    ∧ (id = "BROADCAST" →
        running.mapM (fun m => (m.find "meetingID").map Xml.text) = some targets) := by
  refine ⟨?_, ?_, ?_⟩
  · intro hall
    rw [cmd_meet_chat, h]
    simp [chatLoop_all_ok fail targets hall]
  · intro pre t post heq hpre ht
    rw [cmd_meet_chat, h]
    simp [heq, chatLoop_abort fail pre t post hpre ht]
  · intro hb
    rw [cmd_meet_chat_targets, if_pos hb] at h
    exact h

def chatMeetA : Xml := Xml.mk "meeting" none [Xml.mk "meetingID" (some "A") []]

def chatMeetB : Xml := Xml.mk "meeting" none [Xml.mk "meetingID" (some "B") []]

/-- Counterexample to C5 as stated: with two running meetings `A` and
`B`, a failing send to `A` ends the fan-out; `B`, though running, never
receives a send, so one failure does abort the remaining sends. -/
theorem chat_broadcast_abort :
    cmd_meet_chat_targets "BROADCAST" [chatMeetA, chatMeetB] =
        some [some "A", some "B"]
    ∧ cmd_meet_chat (fun t => decide (t = some "A")) "BROADCAST"
        [chatMeetA, chatMeetB] = some ([some "A"], false)
    ∧ (some "B") ∉ ([some "A"] : List (Option String)) :=
  ⟨rfl, rfl, by decide⟩

/-- Witness for C5 (amended) at two concrete running meetings: all
sends issued when nothing fails, and only the prefix up to the failing
send otherwise. -/
theorem cmd_meet_chat_spec_witness :
    (cmd_meet_chat_targets "BROADCAST" [chatMeetA, chatMeetB] =
        some [some "A", some "B"])
    ∧ cmd_meet_chat (fun _ => false) "BROADCAST" [chatMeetA, chatMeetB] =
        some ([some "A", some "B"], true)
    ∧ cmd_meet_chat (fun t => decide (t = some "A")) "BROADCAST"
        [chatMeetA, chatMeetB] = some ([] ++ [some "A"], false) :=
  ⟨rfl,
   (cmd_meet_chat_spec (fun _ => false) "BROADCAST" [chatMeetA, chatMeetB]
     [some "A", some "B"] rfl).1 (by decide),
   (cmd_meet_chat_spec (fun t => decide (t = some "A")) "BROADCAST"
     [chatMeetA, chatMeetB] [some "A", some "B"] rfl).2.1 [] (some "A")
     [some "B"] rfl (by decide) (by decide)⟩
